import Mathlib

/-!
Shallow embedding of `src/main.py` of the ical-email-notifier repository:
the recurrence-expansion loop of `get_calendar_events`, the notification
ledger, the due-event filter and the orchestrating `run_task`, with proofs
of the specification's testable properties.

Modelling conventions:
* Instants are `Int` Unix timestamps in seconds.  A `datetime.date` value is
  a day number; `fix_datetime` anchors it to midnight, day * 86400 seconds,
  mirroring `datetime.datetime.combine(dt, datetime.time.min)` followed by
  `.timestamp()`.
* A single `now : Int` stands for the readings of `datetime.datetime.now()`
  during one run.
* The network fetch is an `Except Unit (List Component)` argument: `.error`
  is a `requests` failure or the non-2xx exception raised by
  `raise_for_status`; `.ok` carries the already-expanded list of calendar
  components returned by the `recurring_ical_events` library.
* The mailer `send_mail_for_event` is a boolean oracle
  `send : EventInstance → Bool`: in the source it catches every exception it
  raises internally and returns a success flag.
* The ledger file `./data/sent_emails.json` is an `Option String`: `none`
  models a missing file, `some s` its raw bytes.  `json.load` is modelled by
  `parseLedger`, restricted to the ledger's documented shape — a JSON object
  with string keys and string values and no escape sequences; any other
  content counts as a decode failure.  `json.dump` is modelled by
  `serializeLedger` with its default separators, a comma-space between
  entries and a colon-space inside an entry.  Duplicate keys in the input
  follow `json.load`: the last value wins, the first position is kept,
  exactly as repeated assignment into a Python dict.
* `datetime.isoformat` is modelled as an injective rendering of the raw
  date-or-datetime value.
-/

/-- A raw temporal value as found in a calendar component: a full datetime,
a date-only value, or something `fix_datetime` rejects. -/
inductive DTValue where
  | datetime (t : Int)
  | dateOnly (day : Int)
  | invalid
deriving DecidableEq

/-- `fix_datetime` from `src/main.py`: a datetime passes through, a date is
anchored to midnight, anything else raises `ValueError`. -/
def fix_datetime : DTValue → Except String Int
  | .datetime t => .ok t
  | .dateOnly d => .ok (d * 86400)
  | .invalid => .error "Invalid date or time format"

/-- The dictionary built for each kept event in `get_calendar_events`:
summary, raw start and end, description and location. -/
structure EventInstance where
  summary : String
  dtstart : DTValue
  dtend : DTValue
  description : String
  location : String
deriving DecidableEq

/-- One calendar component as yielded by the recurrence expansion.
`dtstart` and `dtend` are `none` when the property is absent, in which case
the source's `component.get(...).dt` raises `AttributeError`.  `summary`,
`description` and `location` model the already-stringified values (`str` in
the source never raises there). -/
structure Component where
  name : String
  dtstart : Option DTValue
  dtend : Option DTValue
  summary : String
  description : String
  location : String
deriving DecidableEq

/-- The `NEXT_HOURS` constant of `src/main.py`. -/
def NEXT_HOURS : Int := 24

/-- The body of the per-component loop in `get_calendar_events`: non-VEVENT
components are ignored, a missing `dtstart`, a temporal value rejected by
`fix_datetime`, or a missing `dtend` raise (and are caught by the caller),
an instance already started before `now` is skipped, and otherwise the
event dictionary is built from the raw values. -/
def processComponent (now : Int) (c : Component) : Except String (Option EventInstance) :=
  if c.name = "VEVENT" then
    match c.dtstart with
    | none => .error "AttributeError"
    | some ds =>
      match fix_datetime ds with
      | .error e => .error e
      | .ok start =>
        if start < now then .ok none
        else
          match c.dtend with
          | none => .error "AttributeError"
          | some de =>
            .ok (some { summary := c.summary, dtstart := ds, dtend := de,
                        description := c.description, location := c.location })
  else .ok none

/-- The full loop of `get_calendar_events`: each component is processed,
any exception is logged and the component skipped, and the produced
instances are collected in order. -/
def expandComponents (now : Int) (cs : List Component) : List EventInstance :=
  cs.filterMap fun c =>
    match processComponent now c with
    | .ok r => r
    | .error _ => none

/-- `get_calendar_events` from `src/main.py`: a fetch failure propagates,
otherwise the fetched components are expanded. -/
def get_calendar_events (now : Int) (fetched : Except Unit (List Component)) :
    Except Unit (List EventInstance) :=
  match fetched with
  | .error e => .error e
  | .ok comps => .ok (expandComponents now comps)

/-- The in-memory `sent_emails` dictionary: an insertion-ordered association
list from event summary to ISO-rendered start instant, as a Python dict. -/
abbrev Ledger := List (String × String)

/-- Key membership in the ledger, the source's `summary in sent_emails`. -/
def ledgerContains (m : Ledger) (k : String) : Bool :=
  m.any fun p => decide (p.1 = k)

/-- Dictionary assignment `m[k] = v`: the first entry with key `k` is
replaced in place, otherwise the new entry is appended. -/
def ledgerSet : Ledger → String → String → Ledger
  | [], k, v => [(k, v)]
  | p :: rest, k, v => if p.1 = k then (k, v) :: rest else p :: ledgerSet rest k v

/-- One serialized ledger entry, `json.dump` style: quoted key, colon,
space, quoted value. -/
def serializeEntry (p : String × String) : String :=
  "\"" ++ p.1 ++ "\": \"" ++ p.2 ++ "\""

/-- `json.dump(sent_emails, f)` with default separators: the entries in
dictionary order inside braces, separated by comma-space. -/
def serializeLedger (m : Ledger) : String :=
  "\x7b" ++ String.intercalate ", " (m.map serializeEntry) ++ "\x7d"

/-- Skip JSON whitespace. -/
def skipWs : List Char → List Char
  | [] => []
  | c :: cs => if c = ' ' || c = '\t' || c = '\n' || c = '\r' then skipWs cs else c :: cs

/-- Parse the body of a JSON string after the opening quote; escape
sequences are outside the modelled shape and count as a decode failure. -/
def parseStringBody : List Char → Option (String × List Char)
  | [] => none
  | c :: cs =>
    if c = '"' then some ("", cs)
    else if c = '\\' then none
    else
      match parseStringBody cs with
      | some (s, rest) => some (String.mk (c :: s.data), rest)
      | none => none

/-- Parse one `"key": "value"` pair, leading whitespace allowed. -/
def parseKV (cs : List Char) : Option ((String × String) × List Char) :=
  match skipWs cs with
  | '"' :: cs1 =>
    match parseStringBody cs1 with
    | some (k, cs2) =>
      match skipWs cs2 with
      | ':' :: cs3 =>
        match skipWs cs3 with
        | '"' :: cs4 =>
          match parseStringBody cs4 with
          | some (v, cs5) => some ((k, v), cs5)
          | none => none
        | _ => none
      | _ => none
    | none => none
  | _ => none

/-- Parse the remaining entries of a JSON object after its opening brace,
accumulating into a dict (duplicate keys: last value wins, first position
kept, as in `json.load`).  Fuelled recursion; the caller supplies enough
fuel for the whole input. -/
def parseEntries : Nat → List Char → Ledger → Option Ledger
  | 0, _, _ => none
  | fuel + 1, cs, acc =>
    match parseKV cs with
    | some (kv, rest) =>
      match skipWs rest with
      | ',' :: more => parseEntries fuel more (ledgerSet acc kv.1 kv.2)
      | '\x7d' :: more =>
        if (skipWs more).isEmpty then some (ledgerSet acc kv.1 kv.2) else none
      | _ => none
    | none => none

/-- `json.load` on the ledger file, restricted to the ledger's documented
shape: a single JSON object with string values; anything else is a decode
failure. -/
def parseLedger (s : String) : Option Ledger :=
  match skipWs s.data with
  | '\x7b' :: cs =>
    match skipWs cs with
    | '\x7d' :: more => if (skipWs more).isEmpty then some [] else none
    | _ => parseEntries (s.length + 1) cs []
  | _ => none

/-- `datetime.isoformat()` on the raw start value, modelled as an injective
rendering. -/
def isoformat : DTValue → String
  | .datetime t => "dt" ++ toString t
  | .dateOnly d => "date" ++ toString d
  | .invalid => "invalid"

/-- An operation performed on the ledger file during a run. -/
inductive FileOp where
  | read
  | write (content : String)
deriving DecidableEq

/-- The observable outcome of one `run_task` call: whether an exception
propagated out of it, the ledger-file operations in order, the events for
which `send_mail_for_event` was invoked, the ledger file afterwards, and
the final value of the in-memory `sent_emails` dict (`none` when the run
returned before loading it). -/
structure RunOutcome where
  raised : Bool
  ops : List FileOp
  dispatched : List EventInstance
  fs : Option String
  ledgerAfter : Option Ledger
deriving DecidableEq

/-- Loading the ledger in `run_task`: a missing file yields an empty dict
and immediately establishes the file with the empty object; an unparsable
file yields an empty dict with the file left as is; otherwise the parsed
dict.  Returns the dict, the file operations and the resulting file
state. -/
def loadLedger (fs0 : Option String) : Ledger × List FileOp × Option String :=
  match fs0 with
  | none => ([], [FileOp.write (serializeLedger [])], some (serializeLedger []))
  | some s =>
    match parseLedger s with
    | some m => (m, [FileOp.read], some s)
    | none => ([], [FileOp.read], some s)

/-- The imminence filter of `run_task`: keep an event exactly when its
normalized start is strictly below `now` plus `NEXT_HOURS` hours; an event
whose start fails to normalize is logged and skipped. -/
def filterUpcoming (now : Int) (events : List EventInstance) : List EventInstance :=
  events.filter fun e =>
    match fix_datetime e.dtstart with
    | .ok t => decide (t < now + NEXT_HOURS * 3600)
    | .error _ => false

/-- The dispatch loop of `run_task`: every new event is sent; on success
its summary is recorded in the dict with the ISO rendering of its raw
start. -/
def dispatchLoop (send : EventInstance → Bool) : List EventInstance → Ledger → Ledger
  | [], m => m
  | e :: rest, m =>
    dispatchLoop send rest (if send e then ledgerSet m e.summary (isoformat e.dtstart) else m)

/-- The tail of `run_task` after the ledger has been loaded: filter to the
imminent window, short-circuit when nothing is imminent, drop events whose
summary is already in the dict, short-circuit when nothing is new,
otherwise dispatch every new event and unconditionally rewrite the ledger
file with the serialized dict. -/
def runFromLedger (now : Int) (events : List EventInstance) (send : EventInstance → Bool)
    (sent0 : Ledger) (ops0 : List FileOp) (fs1 : Option String) : RunOutcome :=
  let upcoming := filterUpcoming now events
  if upcoming.isEmpty then ⟨false, ops0, [], fs1, some sent0⟩
  else
    let newEvents := upcoming.filter fun e => !ledgerContains sent0 e.summary
    if newEvents.isEmpty then ⟨false, ops0, [], fs1, some sent0⟩
    else
      let sentFinal := dispatchLoop send newEvents sent0
      ⟨false, ops0 ++ [FileOp.write (serializeLedger sentFinal)], newEvents,
        some (serializeLedger sentFinal), some sentFinal⟩

/-- `run_task` from `src/main.py`.  A fetch failure propagates out with the
ledger file untouched; an empty expansion returns before the ledger is
read; otherwise the ledger is loaded and the run proceeds. -/
def run_task (now : Int) (fetched : Except Unit (List Component))
    (send : EventInstance → Bool) (fs0 : Option String) : RunOutcome :=
  match get_calendar_events now fetched with
  | .error _ => ⟨true, [], [], fs0, none⟩
  | .ok events =>
    if events.isEmpty then ⟨false, [], [], fs0, none⟩
    else
      let l := loadLedger fs0
      runFromLedger now events send l.1 l.2.1 l.2.2

/-! Helper lemmas about the ledger dictionary. -/

/-- Key membership unfolded to an existential over entries. -/
theorem ledgerContains_iff (m : Ledger) (k : String) :
    ledgerContains m k = true ↔ ∃ p ∈ m, p.1 = k := by
  simp [ledgerContains, List.any_eq_true]

/-- An entry of the dict witnesses key membership. -/
theorem ledgerContains_of_mem (m : Ledger) (p : String × String) (hp : p ∈ m) :
    ledgerContains m p.1 = true :=
  (ledgerContains_iff m p.1).mpr ⟨p, hp, rfl⟩

/-- After an assignment the assigned key is present. -/
theorem ledgerSet_contains_self (m : Ledger) (k v : String) :
    ledgerContains (ledgerSet m k v) k = true := by
  induction m with
  | nil => simp [ledgerSet, ledgerContains]
  | cons p rest ih =>
    simp only [ledgerSet]
    by_cases h : p.1 = k
    · simp [ledgerContains, h]
    · simpa [ledgerContains, h] using ih

/-- Assignment never removes a key. -/
theorem ledgerSet_contains_mono (m : Ledger) (k v x : String)
    (h : ledgerContains m x = true) :
    ledgerContains (ledgerSet m k v) x = true := by
  induction m with
  | nil => simp [ledgerContains] at h
  | cons p rest ih =>
    simp only [ledgerSet]
    by_cases hpk : p.1 = k
    · rw [if_pos hpk]
      simp only [ledgerContains, List.any_cons, Bool.or_eq_true] at h ⊢
      rcases h with h1 | h2
      · left
        have hx : p.1 = x := of_decide_eq_true h1
        exact decide_eq_true (by rw [← hpk, hx])
      · right; exact h2
    · rw [if_neg hpk]
      simp only [ledgerContains, List.any_cons, Bool.or_eq_true] at h ⊢
      rcases h with h1 | h2
      · left; exact h1
      · right; exact ih h2

/-- Assignment of a different key does not change membership of `x`. -/
theorem ledgerSet_contains_ne (m : Ledger) (k v x : String) (hk : k ≠ x) :
    ledgerContains (ledgerSet m k v) x = ledgerContains m x := by
  induction m with
  | nil => simp [ledgerSet, ledgerContains, hk]
  | cons p rest ih =>
    simp only [ledgerSet]
    by_cases hpk : p.1 = k
    · rw [if_pos hpk]
      simp only [ledgerContains, List.any_cons]
      have h1 : decide (k = x) = false := decide_eq_false hk
      have h2 : decide (p.1 = x) = false := decide_eq_false (by rw [hpk]; exact hk)
      rw [h1, h2]
    · rw [if_neg hpk]
      simp only [ledgerContains, List.any_cons] at ih ⊢
      rw [ih]

/-- An entry with a key different from the assigned one survives
assignment unchanged. -/
theorem ledgerSet_mem_of_ne (m : Ledger) (k v : String) (p : String × String)
    (hp : p ∈ m) (hne : p.1 ≠ k) : p ∈ ledgerSet m k v := by
  induction m with
  | nil => cases hp
  | cons q rest ih =>
    simp only [ledgerSet]
    by_cases hq : q.1 = k
    · rw [if_pos hq]
      rcases List.mem_cons.mp hp with rfl | hmem
      · exact absurd hq hne
      · exact List.mem_cons_of_mem _ hmem
    · rw [if_neg hq]
      rcases List.mem_cons.mp hp with rfl | hmem
      · exact List.mem_cons_self _ _
      · exact List.mem_cons_of_mem _ (ih hmem)

/-- A key absent from the dict has no entries at all. -/
theorem countP_key_zero_of_not_contains (m : Ledger) (X : String)
    (h : ledgerContains m X = false) :
    m.countP (fun p => decide (p.1 = X)) = 0 := by
  induction m with
  | nil => simp
  | cons p rest ih =>
    simp only [ledgerContains, List.any_cons, Bool.or_eq_false_iff] at h
    rw [List.countP_cons, ih h.2, h.1]
    rfl

/-- Assigning a key other than `X` leaves the number of `X` entries
unchanged. -/
theorem countP_key_ledgerSet_ne (m : Ledger) (k v X : String) (hk : k ≠ X) :
    (ledgerSet m k v).countP (fun p => decide (p.1 = X)) =
      m.countP (fun p => decide (p.1 = X)) := by
  induction m with
  | nil => simp [ledgerSet, List.countP_cons, hk]
  | cons q rest ih =>
    simp only [ledgerSet]
    by_cases hq : q.1 = k
    · rw [if_pos hq]
      rw [List.countP_cons, List.countP_cons]
      have h1 : decide (((k, v) : String × String).1 = X) = false := decide_eq_false hk
      have h2 : decide (q.1 = X) = false := decide_eq_false (by rw [hq]; exact hk)
      simp [h1, h2]
    · rw [if_neg hq]
      rw [List.countP_cons, List.countP_cons, ih]

/-- Assigning key `X` to a dict that satisfies the at-most-one invariant
for `X` leaves exactly one `X` entry. -/
theorem countP_key_ledgerSet_eq (m : Ledger) (v X : String)
    (hinv : m.countP (fun p => decide (p.1 = X)) =
      if ledgerContains m X = true then 1 else 0) :
    (ledgerSet m X v).countP (fun p => decide (p.1 = X)) = 1 := by
  induction m with
  | nil => simp [ledgerSet]
  | cons q rest ih =>
    simp only [ledgerSet]
    by_cases hq : q.1 = X
    · rw [if_pos hq]
      have h1 : (q :: rest).countP (fun p => decide (p.1 = X)) =
          rest.countP (fun p => decide (p.1 = X)) + 1 := by
        simp [List.countP_cons, hq]
      have h2 : ledgerContains (q :: rest) X = true := by
        simp [ledgerContains, hq]
      rw [h1, h2] at hinv
      simp at hinv
      simpa [List.countP_cons, List.countP_eq_zero] using hinv
    · rw [if_neg hq]
      have h1 : (q :: rest).countP (fun p => decide (p.1 = X)) =
          rest.countP (fun p => decide (p.1 = X)) := by
        simp [List.countP_cons, hq]
      have h2 : ledgerContains (q :: rest) X = ledgerContains rest X := by
        simp [ledgerContains, hq]
      rw [h1, h2] at hinv
      simp [List.countP_cons, hq, ih hinv]

/-! Helper lemmas about the dispatch loop and the run structure. -/

/-- The dispatch loop never removes a key from the dict. -/
theorem dispatchLoop_contains_mono (send : EventInstance → Bool)
    (l : List EventInstance) (m : Ledger) (x : String)
    (h : ledgerContains m x = true) :
    ledgerContains (dispatchLoop send l m) x = true := by
  induction l generalizing m with
  | nil => exact h
  | cons e rest ih =>
    simp only [dispatchLoop]
    apply ih
    by_cases hs : send e = true
    · rw [if_pos hs]
      exact ledgerSet_contains_mono m e.summary (isoformat e.dtstart) x h
    · rw [if_neg hs]
      exact h

/-- A successfully sent event's summary is a key of the resulting dict. -/
theorem dispatchLoop_contains_of_mem (send : EventInstance → Bool)
    (l : List EventInstance) (m : Ledger) (e0 : EventInstance)
    (he : e0 ∈ l) (hs : send e0 = true) :
    ledgerContains (dispatchLoop send l m) e0.summary = true := by
  induction l generalizing m with
  | nil => cases he
  | cons e rest ih =>
    simp only [dispatchLoop]
    rcases List.mem_cons.mp he with rfl | hmem
    · apply dispatchLoop_contains_mono
      rw [if_pos hs]
      exact ledgerSet_contains_self m e0.summary (isoformat e0.dtstart)
    · exact ih _ hmem

/-- An entry whose key is the summary of no event in the loop survives the
loop unchanged. -/
theorem dispatchLoop_mem_of_ne (send : EventInstance → Bool)
    (l : List EventInstance) (m : Ledger) (p : String × String)
    (hp : p ∈ m) (hne : ∀ e ∈ l, e.summary ≠ p.1) :
    p ∈ dispatchLoop send l m := by
  induction l generalizing m with
  | nil => exact hp
  | cons e rest ih =>
    simp only [dispatchLoop]
    apply ih
    · by_cases hs : send e = true
      · rw [if_pos hs]
        exact ledgerSet_mem_of_ne m e.summary (isoformat e.dtstart) p hp
          fun hc => (hne e (List.mem_cons_self e rest)) hc.symm
      · rw [if_neg hs]
        exact hp
    · intro e1 he1
      exact hne e1 (List.mem_cons_of_mem e he1)

/-- When every send fails, the loop leaves the dict unchanged. -/
theorem dispatchLoop_all_fail (send : EventInstance → Bool)
    (l : List EventInstance) (m : Ledger)
    (hf : ∀ e, send e = false) :
    dispatchLoop send l m = m := by
  induction l generalizing m with
  | nil => rfl
  | cons e rest ih =>
    simp only [dispatchLoop]
    rw [if_neg (by simp [hf e])]
    exact ih m

/-- The loop preserves the at-most-one-entry-per-key invariant for `X`. -/
theorem dispatchLoop_inv (send : EventInstance → Bool)
    (l : List EventInstance) (m : Ledger) (X : String)
    (hinv : m.countP (fun p => decide (p.1 = X)) =
      if ledgerContains m X = true then 1 else 0) :
    (dispatchLoop send l m).countP (fun p => decide (p.1 = X)) =
      if ledgerContains (dispatchLoop send l m) X = true then 1 else 0 := by
  induction l generalizing m with
  | nil => exact hinv
  | cons e rest ih =>
    simp only [dispatchLoop]
    apply ih
    by_cases hs : send e = true
    · rw [if_pos hs]
      by_cases hk : e.summary = X
      · subst hk
        rw [countP_key_ledgerSet_eq m (isoformat e.dtstart) e.summary hinv]
        rw [ledgerSet_contains_self m e.summary (isoformat e.dtstart)]
        simp
      · rw [countP_key_ledgerSet_ne m e.summary (isoformat e.dtstart) X hk]
        rw [ledgerSet_contains_ne m e.summary (isoformat e.dtstart) X hk]
        exact hinv
    · rw [if_neg hs]
      exact hinv

/-- The tail of the run never lets an exception propagate. -/
theorem runFromLedger_raised (now : Int) (events : List EventInstance)
    (send : EventInstance → Bool) (sent0 : Ledger) (ops0 : List FileOp)
    (fs1 : Option String) :
    (runFromLedger now events send sent0 ops0 fs1).raised = false := by
  simp only [runFromLedger]
  split
  · rfl
  · split
    · rfl
    · rfl

/-- Every event the run dispatches is imminent and its summary was absent
from the loaded dict. -/
theorem runFromLedger_dispatched_mem (now : Int) (events : List EventInstance)
    (send : EventInstance → Bool) (sent0 : Ledger) (ops0 : List FileOp)
    (fs1 : Option String) (e : EventInstance)
    (he : e ∈ (runFromLedger now events send sent0 ops0 fs1).dispatched) :
    e ∈ filterUpcoming now events ∧ ledgerContains sent0 e.summary = false := by
  simp only [runFromLedger] at he
  split at he
  · simp at he
  · split at he
    · simp at he
    · have h := List.mem_filter.mp he
      exact ⟨h.1, by simpa using h.2⟩

/-- A run whose expansion is empty returns before touching the ledger. -/
theorem run_task_empty (now : Int) (comps : List Component)
    (send : EventInstance → Bool) (fs0 : Option String)
    (h : (expandComponents now comps).isEmpty = true) :
    run_task now (.ok comps) send fs0 = ⟨false, [], [], fs0, none⟩ := by
  simp [run_task, get_calendar_events, h]

/-- A run whose expansion is non-empty loads the ledger and proceeds. -/
theorem run_task_load (now : Int) (comps : List Component)
    (send : EventInstance → Bool) (fs0 : Option String)
    (hne : (expandComponents now comps).isEmpty = false) :
    run_task now (.ok comps) send fs0 =
      runFromLedger now (expandComponents now comps) send (loadLedger fs0).1
        (loadLedger fs0).2.1 (loadLedger fs0).2.2 := by
  simp [run_task, get_calendar_events, hne]

/-- A run over an existing, parsable ledger file proceeds with the parsed
dict and the file untouched by loading. -/
theorem run_task_some_parse (now : Int) (comps : List Component)
    (send : EventInstance → Bool) (s : String) (m : Ledger)
    (hparse : parseLedger s = some m)
    (hne : (expandComponents now comps).isEmpty = false) :
    run_task now (.ok comps) send (some s) =
      runFromLedger now (expandComponents now comps) send m [FileOp.read] (some s) := by
  rw [run_task_load now comps send (some s) hne]
  simp [loadLedger, hparse]

/-- A fetch-success run never lets an exception propagate. -/
theorem run_task_ok_raised (now : Int) (comps : List Component)
    (send : EventInstance → Bool) (fs0 : Option String) :
    (run_task now (.ok comps) send fs0).raised = false := by
  by_cases h : (expandComponents now comps).isEmpty = true
  · rw [run_task_empty now comps send fs0 h]
  · rw [run_task_load now comps send fs0 (by simpa using h)]
    exact runFromLedger_raised _ _ _ _ _ _

/-- A component the loop turns into an instance carries its raw start, that
start normalizes, and the normalized start is not before `now`. -/
theorem processComponent_ok_some (now : Int) (c : Component) (e : EventInstance)
    (h : processComponent now c = .ok (some e)) :
    ∃ t, fix_datetime e.dtstart = .ok t ∧ now ≤ t := by
  by_cases hname : c.name = "VEVENT"
  · cases hds : c.dtstart with
    | none => simp [processComponent, hname, hds] at h
    | some ds =>
      cases hfix : fix_datetime ds with
      | error msg => simp [processComponent, hname, hds, hfix] at h
      | ok start =>
        by_cases hlt : start < now
        · simp [processComponent, hname, hds, hfix, hlt] at h
        · cases hde : c.dtend with
          | none => simp [processComponent, hname, hds, hfix, hlt, hde] at h
          | some de =>
            simp [processComponent, hname, hds, hfix, hlt, hde] at h
            rw [← h]
            exact ⟨start, hfix, le_of_not_lt hlt⟩
  · simp [processComponent, hname] at h

/-! Concrete fixtures used by witnesses and counterexamples. -/

/-- A due event component titled "X" starting at instant 100. -/
def compX1 : Component := ⟨"VEVENT", some (.datetime 100), some (.datetime 150), "X", "", ""⟩

/-- A second due event component also titled "X", starting at 7200. -/
def compX2 : Component := ⟨"VEVENT", some (.datetime 7200), some (.datetime 7300), "X", "", ""⟩

/-- A due event component titled "Y" starting at instant 300. -/
def compY : Component := ⟨"VEVENT", some (.datetime 300), some (.datetime 350), "Y", "", ""⟩

/-- A malformed component: its start value is rejected by `fix_datetime`. -/
def compBad : Component := ⟨"VEVENT", some .invalid, some (.datetime 400), "B", "", ""⟩

/-- The instance expanded from `compX1`. -/
def evX1 : EventInstance := ⟨"X", .datetime 100, .datetime 150, "", ""⟩

/-- The instance expanded from `compY`. -/
def evY : EventInstance := ⟨"Y", .datetime 300, .datetime 350, "", ""⟩

/-- An instance whose normalized start sits exactly at the imminence
cutoff for `now = 0`: 24 hours, 86400 seconds. -/
def evCutoff : EventInstance := ⟨"C", .datetime 86400, .datetime 90000, "", ""⟩

/-- An instance starting 23 hours after `now = 0`. -/
def ev23h : EventInstance := ⟨"W", .datetime 82800, .datetime 86400, "", ""⟩

/-- An instance starting 25 hours after `now = 0`. -/
def ev25h : EventInstance := ⟨"V", .datetime 90000, .datetime 93600, "", ""⟩

/-- A ledger file whose content already records identity "X". -/
def ledgerFileX : String := "\x7b\"X\": \"dt5\"\x7d"

/-! Claim theorems. -/

/-- C3, counterexample: the claim says an instance whose normalized start
equals the cutoff `now + imminent_window_hours` is kept by the due-event
filter; in the code the comparison is strict, so `evCutoff`, starting
exactly 24 hours after `now = 0`, is excluded. -/
theorem c3_cutoff_instance_excluded : evCutoff ∉ filterUpcoming 0 [evCutoff] := by
  decide

/-- C3, amended: the due-event filter keeps an expanded instance exactly
when its normalized start is strictly less than the cutoff
`now + NEXT_HOURS` hours; an instance exactly at the cutoff is excluded,
one at `now + 25h` is excluded, and one at `now + 23h` is included. -/
theorem c3_due_filter_strict_window (now : Int) (events : List EventInstance)
    (e : EventInstance) :
    e ∈ filterUpcoming now events ↔
      e ∈ events ∧ ∃ t, fix_datetime e.dtstart = .ok t ∧ t < now + NEXT_HOURS * 3600 := by
  unfold filterUpcoming
  rw [List.mem_filter]
  constructor
  · rintro ⟨hmem, hp⟩
    refine ⟨hmem, ?_⟩
    cases hfix : fix_datetime e.dtstart with
    | ok t =>
      rw [hfix] at hp
      exact ⟨t, rfl, of_decide_eq_true hp⟩
    | error msg =>
      rw [hfix] at hp
      cases hp
  · rintro ⟨hmem, t, hfix, hlt⟩
    refine ⟨hmem, ?_⟩
    rw [hfix]
    exact decide_eq_true hlt

/-- C3, witness: at `now = 0` the instance starting 23 hours out is kept
by the filter, and the one starting 25 hours out is not among the kept. -/
theorem c3_due_filter_strict_window_witness :
    ev23h ∈ filterUpcoming 0 [ev23h, ev25h] :=
  (c3_due_filter_strict_window 0 [ev23h, ev25h] ev23h).mpr
    ⟨by decide, 82800, rfl, by decide⟩

/-- C5: every instance the expansion loop emits has a normalized start
that is not strictly before the expansion-time `now`; instances already in
the past never appear in the output. -/
theorem c5_expander_excludes_past (now : Int) (cs : List Component) (e : EventInstance)
    (he : e ∈ expandComponents now cs) :
    ∃ t, fix_datetime e.dtstart = .ok t ∧ now ≤ t := by
  unfold expandComponents at he
  rw [List.mem_filterMap] at he
  obtain ⟨c, hc, hpc⟩ := he
  cases hres : processComponent now c with
  | error msg => rw [hres] at hpc; cases hpc
  | ok r =>
    rw [hres] at hpc
    cases r with
    | none => cases hpc
    | some e1 =>
      have he1 : e1 = e := by simpa using hpc
      rw [he1] at hres
      exact processComponent_ok_some now c e hres

/-- C5, witness: the instance expanded from `compX1` at `now = 0` has a
normalized start at or after 0. -/
theorem c5_expander_excludes_past_witness :
    evX1 ∈ expandComponents 0 [compX1] ∧
    ∃ t, fix_datetime evX1.dtstart = .ok t ∧ (0 : Int) ≤ t :=
  ⟨by decide, c5_expander_excludes_past 0 [compX1] evX1 (by decide)⟩

/-- C6: a component on which processing raises contributes nothing and
changes nothing — the expansion of the batch with the bad component in the
middle equals the expansion without it — and every well-formed component
that yields an instance still has its instance in the output. -/
theorem c6_malformed_component_isolated (now : Int) (pre post : List Component)
    (bad : Component)
    (hbad : ∃ msg, processComponent now bad = .error msg) :
    expandComponents now (pre ++ bad :: post) = expandComponents now (pre ++ post) ∧
    ∀ c ∈ pre ++ post, ∀ e, processComponent now c = .ok (some e) →
      e ∈ expandComponents now (pre ++ bad :: post) := by
  obtain ⟨msg, hmsg⟩ := hbad
  constructor
  · unfold expandComponents
    rw [List.filterMap_append, List.filterMap_append, List.filterMap_cons]
    simp [hmsg]
  · intro c hc e hce
    unfold expandComponents
    rw [List.mem_filterMap]
    refine ⟨c, ?_, by rw [hce]⟩
    rcases List.mem_append.mp hc with h | h
    · exact List.mem_append.mpr (Or.inl h)
    · exact List.mem_append.mpr (Or.inr (List.mem_cons_of_mem bad h))

/-- C6, witness: with the malformed `compBad` between `compX1` and
`compY`, the batch expands exactly as without it, and the instance of the
well-formed `compY` is still produced. -/
theorem c6_malformed_component_isolated_witness :
    expandComponents 0 ([compX1] ++ compBad :: [compY]) =
      expandComponents 0 ([compX1] ++ [compY]) ∧
    evY ∈ expandComponents 0 ([compX1] ++ compBad :: [compY]) :=
  ⟨(c6_malformed_component_isolated 0 [compX1] [compY] compBad
      ⟨"Invalid date or time format", rfl⟩).1,
   (c6_malformed_component_isolated 0 [compX1] [compY] compBad
      ⟨"Invalid date or time format", rfl⟩).2 compY (by decide) evY rfl⟩

/-- C7: when the ledger file exists but does not parse, the run raises no
error and proceeds exactly as with an empty in-memory ledger (the file is
left as it was by the load). -/
theorem c7_corrupt_ledger_recovered (now : Int) (comps : List Component)
    (send : EventInstance → Bool) (s : String)
    (hparse : parseLedger s = none) :
    (run_task now (.ok comps) send (some s)).raised = false ∧
    ((expandComponents now comps).isEmpty = false →
      run_task now (.ok comps) send (some s) =
        runFromLedger now (expandComponents now comps) send [] [FileOp.read] (some s)) := by
  refine ⟨run_task_ok_raised now comps send (some s), fun hne => ?_⟩
  rw [run_task_load now comps send (some s) hne]
  simp [loadLedger, hparse]

/-- C7, witness: with an unparsable ledger file and one due event the run
completes without raising. -/
theorem c7_corrupt_ledger_recovered_witness :
    parseLedger "corrupt" = none ∧
    (run_task 0 (.ok [compX1]) (fun _ => true) (some "corrupt")).raised = false :=
  ⟨by decide, (c7_corrupt_ledger_recovered 0 [compX1] (fun _ => true) "corrupt" (by decide)).1⟩

/-- C8: when the fetch fails, the exception propagates out of `run_task`
(`raised` is set), no ledger file operation happens, nothing is
dispatched, and the ledger file is exactly as before. -/
theorem c8_fetch_failure_propagates (now : Int) (send : EventInstance → Bool)
    (fs0 : Option String) :
    run_task now (.error ()) send fs0 = ⟨true, [], [], fs0, none⟩ := rfl

/-- C10: a run whose expansion yields no instances returns without any
ledger file operation; in particular a missing ledger file stays missing
(`fs0` is returned unchanged, whatever it was). -/
theorem c10_empty_expansion_skips_ledger (now : Int) (comps : List Component)
    (send : EventInstance → Bool) (fs0 : Option String)
    (h : expandComponents now comps = []) :
    run_task now (.ok comps) send fs0 = ⟨false, [], [], fs0, none⟩ :=
  run_task_empty now comps send fs0 (by simp [h])

/-- C10, witness: a run over an empty component list with a missing ledger
file performs no file operation and does not create the file. -/
theorem c10_empty_expansion_skips_ledger_witness :
    expandComponents 0 ([] : List Component) = [] ∧
    run_task 0 (.ok []) (fun _ => true) none = ⟨false, [], [], none, none⟩ :=
  ⟨rfl, c10_empty_expansion_skips_ledger 0 [] (fun _ => true) none rfl⟩

/-- C4: when the loaded ledger contains identity `X`, no dispatch is ever
attempted for an instance with summary `X`, no matter how many instances
share that summary. -/
theorem c4_ledger_suppresses_dispatch (now : Int) (comps : List Component)
    (send : EventInstance → Bool) (s : String) (m : Ledger) (X : String)
    (hparse : parseLedger s = some m)
    (hmem : ledgerContains m X = true) :
    ∀ e ∈ (run_task now (.ok comps) send (some s)).dispatched, e.summary ≠ X := by
  intro e he heq
  by_cases hemp : (expandComponents now comps).isEmpty = true
  · rw [run_task_empty now comps send (some s) hemp] at he
    simp at he
  · rw [run_task_some_parse now comps send s m hparse
      (by simpa using hemp)] at he
    have h2 := (runFromLedger_dispatched_mem now (expandComponents now comps)
      send m [FileOp.read] (some s) e he).2
    rw [heq] at h2
    rw [hmem] at h2
    cases h2

/-- C4, witness: with "X" recorded in the ledger file, the run over a
feed containing both an "X" and a "Y" instance dispatches `evY`, and
the theorem applies to it. -/
theorem c4_ledger_suppresses_dispatch_witness :
    parseLedger ledgerFileX = some [("X", "dt5")] ∧ evY.summary ≠ "X" :=
  ⟨by decide,
   c4_ledger_suppresses_dispatch 0 [compX1, compY] (fun _ => true) ledgerFileX
     [("X", "dt5")] "X" (by decide) (by decide) evY (by decide)⟩

/-- C9: a run never removes or overwrites an entry of the loaded ledger:
every pair of the parsed dict is still present, unchanged, in the final
in-memory dict whenever the run got as far as loading one. -/
theorem c9_ledger_entries_preserved (now : Int) (comps : List Component)
    (send : EventInstance → Bool) (s : String) (m : Ledger)
    (hparse : parseLedger s = some m) :
    ∀ p ∈ m, ∀ mF, (run_task now (.ok comps) send (some s)).ledgerAfter = some mF →
      p ∈ mF := by
  intro p hp mF hmF
  by_cases hemp : (expandComponents now comps).isEmpty = true
  · rw [run_task_empty now comps send (some s) hemp] at hmF
    cases hmF
  · rw [run_task_some_parse now comps send s m hparse
      (by simpa using hemp)] at hmF
    simp only [runFromLedger] at hmF
    split at hmF
    · rw [Option.some_inj.mp hmF] at hp
      exact hp
    · split at hmF
      · rw [Option.some_inj.mp hmF] at hp
        exact hp
      · rw [← Option.some_inj.mp hmF]
        apply dispatchLoop_mem_of_ne send _ m p hp
        intro e he1 hcontra
        have h2 := List.mem_filter.mp he1
        have h3 : ledgerContains m e.summary = false := by simpa using h2.2
        have h4 : ledgerContains m p.1 = true := ledgerContains_of_mem m p hp
        rw [hcontra] at h3
        rw [h4] at h3
        cases h3

/-- C9, witness: with "X" already in the ledger and a new "Y" event
dispatched successfully, the entry for "X" survives the run unchanged. -/
theorem c9_ledger_entries_preserved_witness :
    (run_task 0 (.ok [compY]) (fun _ => true) (some ledgerFileX)).ledgerAfter =
      some [("X", "dt5"), ("Y", "dt300")] ∧
    ("X", "dt5") ∈ [("X", "dt5"), ("Y", "dt300")] :=
  ⟨by decide,
   c9_ledger_entries_preserved 0 [compY] (fun _ => true) ledgerFileX
     [("X", "dt5")] (by decide) ("X", "dt5") (by decide)
     [("X", "dt5"), ("Y", "dt300")] (by decide)⟩

/-- C1, counterexample: with two due instances sharing summary "X", an
empty ledger file, and every dispatch succeeding, the claim says exactly
one dispatch occurs for "X"; the run dispatches both instances ("new"
events are selected once, before the dispatch loop, and never re-checked
against the dict it updates). -/
theorem c1_duplicate_identity_counterexample :
    ((run_task 0 (.ok [compX1, compX2]) (fun _ => true)
        (some "\x7b\x7d")).dispatched.countP
      (fun e => decide (e.summary = "X"))) = 2 := by decide

/-- C1, amended: with two or more due instances sharing identity `X`,
`X` absent from the loaded ledger, and every dispatch succeeding, a
dispatch occurs for each of those instances (not exactly one), while the
ledger after the run does contain exactly one entry for `X`. -/
theorem c1_duplicate_identity_amended (now : Int) (comps : List Component)
    (send : EventInstance → Bool) (s : String) (m : Ledger) (X : String)
    (hparse : parseLedger s = some m)
    (habs : ledgerContains m X = false)
    (hsend : ∀ e, send e = true)
    (hdue : 2 ≤ ((run_task now (.ok comps) send (some s)).dispatched.countP
        (fun e => decide (e.summary = X)))) :
    ∃ mF, (run_task now (.ok comps) send (some s)).ledgerAfter = some mF ∧
      mF.countP (fun p => decide (p.1 = X)) = 1 := by
  by_cases hemp : (expandComponents now comps).isEmpty = true
  · rw [run_task_empty now comps send (some s) hemp] at hdue
    simp at hdue
  · rw [run_task_some_parse now comps send s m hparse (by simpa using hemp)] at hdue ⊢
    simp only [runFromLedger] at hdue ⊢
    by_cases hup : (filterUpcoming now (expandComponents now comps)).isEmpty = true
    · rw [if_pos hup] at hdue
      simp at hdue
    · rw [if_neg hup] at hdue ⊢
      by_cases hnew : ((filterUpcoming now (expandComponents now comps)).filter
          (fun e => !ledgerContains m e.summary)).isEmpty = true
      · rw [if_pos hnew] at hdue
        simp at hdue
      · rw [if_neg hnew] at hdue ⊢
        dsimp only at hdue ⊢
        refine ⟨dispatchLoop send ((filterUpcoming now (expandComponents now comps)).filter
          (fun e => !ledgerContains m e.summary)) m, rfl, ?_⟩
        have hpos : 0 < ((filterUpcoming now (expandComponents now comps)).filter
            (fun e => !ledgerContains m e.summary)).countP
              (fun e => decide (e.summary = X)) :=
          lt_of_lt_of_le (by decide) hdue
        obtain ⟨e0, he0, hpe0⟩ := List.countP_pos_iff.mp hpos
        have hX : e0.summary = X := of_decide_eq_true hpe0
        have hcont : ledgerContains (dispatchLoop send
            ((filterUpcoming now (expandComponents now comps)).filter
              (fun e => !ledgerContains m e.summary)) m) X = true := by
          rw [← hX]
          exact dispatchLoop_contains_of_mem send _ m e0 he0 (hsend e0)
        have hinv0 : m.countP (fun p => decide (p.1 = X)) =
            if ledgerContains m X = true then 1 else 0 := by
          rw [countP_key_zero_of_not_contains m X habs, habs]
          simp
        have hinv := dispatchLoop_inv send
          ((filterUpcoming now (expandComponents now comps)).filter
            (fun e => !ledgerContains m e.summary)) m X hinv0
        rw [hcont] at hinv
        simpa using hinv

/-- C1, witness: the amended statement at the counterexample's input —
two dispatches happen, and the final dict has exactly one "X" entry. -/
theorem c1_duplicate_identity_amended_witness :
    parseLedger "\x7b\x7d" = some [] ∧
    ∃ mF, (run_task 0 (.ok [compX1, compX2]) (fun _ => true)
        (some "\x7b\x7d")).ledgerAfter = some mF ∧
      mF.countP (fun p => decide (p.1 = "X")) = 1 :=
  ⟨by decide,
   c1_duplicate_identity_amended 0 [compX1, compX2] (fun _ => true) "\x7b\x7d" [] "X"
     (by decide) (by decide) (fun _ => rfl) (by decide)⟩

/-- C2, counterexample: with one due event and every dispatch failing,
the run still rewrites the ledger file; a pre-existing file whose bytes
are a non-canonical rendering of the empty object comes back canonical,
so the file is not byte-identical to before. -/
theorem c2_failed_dispatch_rewrite_counterexample :
    (run_task 0 (.ok [compX1]) (fun _ => false) (some "\x7b \x7d")).fs =
      some "\x7b\x7d" ∧
    ("\x7b \x7d" : String) ≠ "\x7b\x7d" := by decide

/-- C2, amended: when every dispatch fails, the run leaves the ledger
mapping unchanged; the file afterwards holds the canonical serialization
of the loaded dict, so its bytes are identical to before exactly when the
prior content was already in canonical serialized form — in particular
whenever it was last written by the program itself. -/
theorem c2_all_dispatch_failed_canonical_preserved (now : Int)
    (comps : List Component) (send : EventInstance → Bool) (m : Ledger)
    (hparse : parseLedger (serializeLedger m) = some m)
    (hfail : ∀ e, send e = false) :
    (run_task now (.ok comps) send (some (serializeLedger m))).fs =
      some (serializeLedger m) := by
  by_cases hemp : (expandComponents now comps).isEmpty = true
  · rw [run_task_empty now comps send (some (serializeLedger m)) hemp]
  · rw [run_task_some_parse now comps send (serializeLedger m) m hparse
      (by simpa using hemp)]
    simp only [runFromLedger]
    by_cases hup : (filterUpcoming now (expandComponents now comps)).isEmpty = true
    · rw [if_pos hup]
    · rw [if_neg hup]
      by_cases hnew : ((filterUpcoming now (expandComponents now comps)).filter
          (fun e => !ledgerContains m e.summary)).isEmpty = true
      · rw [if_pos hnew]
      · rw [if_neg hnew]
        dsimp only
        rw [dispatchLoop_all_fail send _ m hfail]

/-- C2, witness: a ledger file holding the canonical empty object, one
due event, all dispatches failing — the file bytes are unchanged. -/
theorem c2_all_dispatch_failed_canonical_preserved_witness :
    parseLedger (serializeLedger []) = some [] ∧
    (run_task 0 (.ok [compX1]) (fun _ => false) (some (serializeLedger []))).fs =
      some (serializeLedger []) :=
  ⟨by decide,
   c2_all_dispatch_failed_canonical_preserved 0 [compX1] (fun _ => false) []
     (by decide) (fun _ => rfl)⟩
